import Mathlib

/-!
# Verification of the koa-pageable pagination library

Shallow embedding of `src/index.js` (koa-pageable): sort-specification
parsing, the `Order`/`Sort`/`Pageable` data model, the `Page` hierarchy
(`ArrayPage`, `IndexedPage`, `IndexablePage`) with `map` and `toJSON`,
and the `paginate` entry point.

Modelling conventions:
* JavaScript strings are `String`; a value that may be `undefined` is an
  `Option String` (`none` = `undefined`).
* Machine numbers that hold parsed integers are `Int` (JS numbers behave
  exactly on these ranges); `totalElements` is a `Nat`.
* `Math.ceil(totalElements / size)` is real division followed by ceiling,
  embedded over `ℚ`.  When `size = 0` the JS quotient is `NaN` (for
  `totalElements = 0`) or `Infinity`; both are non-finite, both make the
  comparison `number >= totalPages - 1` evaluate to `false`, so
  `totalPages` is embedded as `Option Nat` with `none` for the non-finite
  results.
* Throwing code returns `Except JSError`.
* A JS object used as a map (lodash `keyBy` / `mapValues`) is an
  association list in key-insertion order: assigning an existing key
  overwrites in place, a new key is appended — exactly the JS object
  semantics that `Object.values` and `mapValues` observe.
-/

/-- Decidable equality for `Except`, so that concrete runs of the
throwing functions can be settled by `decide`. -/
instance {ε α : Type} [DecidableEq ε] [DecidableEq α] : DecidableEq (Except ε α) := fun x y =>
  match x, y with
  | .ok a, .ok b =>
    if h : a = b then .isTrue (by rw [h]) else .isFalse (by intro he; cases he; exact h rfl)
  | .error a, .error b =>
    if h : a = b then .isTrue (by rw [h]) else .isFalse (by intro he; cases he; exact h rfl)
  | .ok _, .error _ => .isFalse (by intro h; cases h)
  | .error _, .ok _ => .isFalse (by intro h; cases h)

namespace KoaPageable

/-- The error types of the library (`KoaPageableError` subclasses), plus the
built-in `TypeError` that `Order`'s constructor can hit on a `null`
direction. `numberFormat` carries the offending input text. -/
inductive JSError where
  | numberFormat (input : String)
  | invalidSort
  | typeError
deriving DecidableEq, Repr

/-- The `Direction` enumeration: `{asc: 'asc', desc: 'desc'}`. -/
inductive Direction where
  | asc
  | desc
deriving DecidableEq, Repr

/-- The string value of a `Direction` member (the enum stores strings). -/
def Direction.value : Direction → String
  | .asc => "asc"
  | .desc => "desc"

/-- A JS argument in string position: `undefined` (parameter omitted),
`null`, or an actual string. -/
inductive JSStr where
  | undef
  | null
  | str (s : String)
deriving DecidableEq, Repr

/-- `String.prototype.split(sep)` on a list of characters: structural
recursion so that concrete evaluations reduce in the kernel. -/
def splitChars (sep : Char) : List Char → List (List Char)
  | [] => [[]]
  | c :: cs =>
    match splitChars sep cs with
    | [] => if c = sep then [[], []] else [[c]]
    | r :: rs => if c = sep then [] :: r :: rs else (c :: r) :: rs

/-- `s.split(sep)` for a one-character separator (the library only splits
on `','` and `':'`). `"".split(sep)` is `[""]`, as in JS. -/
def jsSplit (sep : Char) (s : String) : List String :=
  (splitChars sep s.data).map String.mk

/-- `String.prototype.toLowerCase()`; ASCII case mapping, which coincides
with JS on every string whose lowercase form could be `"desc"`. -/
def jsToLower (s : String) : String :=
  String.mk (s.data.map Char.toLower)

/-- `Order`: a `(property, direction)` pair. `property` is whatever value
the constructor received — possibly `undefined` (the parser can pass
`result[0]` of an empty split result). -/
structure Order where
  property : Option String
  direction : Direction
deriving DecidableEq, Repr

/-- The `Order` constructor:
`this.direction` starts at the default `'asc'` and is set to `'desc'`
only when `direction.toLowerCase() === 'desc'`; the property is stored
unchanged. An omitted argument defaults to `Order._DEFAULT_DIRECTION`
(`'asc'`); a `null` argument makes `direction.toLowerCase()` throw a
`TypeError`. -/
def Order.make (property : Option String) (direction : JSStr) : Except JSError Order :=
  let dirStr : Option String :=
    match direction with
    | .undef => some "asc"
    | .null => none
    | .str s => some s
  match dirStr with
  | none => .error .typeError
  | some s => .ok ⟨property, if jsToLower s = "desc" then .desc else .asc⟩

/-- `stringToDirection`: empty/absent input yields the default `'asc'`;
an exact match of `'asc'`/`'desc'` yields that value; anything else
throws `InvalidSortError`. Returns the direction *string* that is then
fed to the `Order` constructor, as in the source. -/
def stringToDirection (dir : Option String) : Except JSError String :=
  match dir with
  | none => .ok "asc"
  | some d =>
    if d = "" then .ok "asc"
    else if d = "asc" then .ok "asc"
    else if d = "desc" then .ok "desc"
    else .error .invalidSort

/-- `Sort`: a wrapper around an ordered list of `Order`s. (`Sort` is a
Lean keyword, hence the prime.) -/
structure Sort' where
  orders : List Order
deriving DecidableEq, Repr

/-- `Sort.prototype.toJSON()`: serializes as the bare order list. -/
def Sort'.toJSON (s : Sort') : List Order :=
  s.orders

/-- `Sort.prototype.forEach(iteratee)`: calls the iteratee with each
order's `(property, direction)` pair, in sequence order. -/
def Sort'.forEach (s : Sort') (iteratee : Option String → Direction → α) : List α :=
  s.orders.map (fun o => iteratee o.property o.direction)

/-- One step of the `Sort[Symbol.iterator]` object: with the captured
`values` array and current `count`, `next()` computes
`done = (count >= values.length)` and then `value = values[count += 1]`
(pre-increment, then index). Collects the `value`s a `for...of`
consumer sees: values are taken while `done` is false; an out-of-range
index reads `undefined` (`none`). The `fuel` argument is an upper bound
on the number of `next()` calls; `values.length + 1` always suffices. -/
def iterCollect (values : List Order) : Nat → Nat → List (Option Order)
  | 0, _ => []
  | fuel + 1, count =>
    if values.length ≤ count then []
    else values[count + 1]? :: iterCollect values fuel (count + 1)

/-- The full sequence of values a `for...of` loop over the `Sort`
receives from the iterator in the source. -/
def Sort'.iterate (s : Sort') : List (Option Order) :=
  iterCollect s.orders (s.orders.length + 1) 0

/-- A sort query parameter: a single string or an array of strings. -/
inductive SortQuery where
  | str (s : String)
  | arr (l : List String)
deriving DecidableEq, Repr

/-- `parseSort` step 1–2: flatten a multi-valued parameter by splitting
each element on `','` (single values are split directly), then keep
only the tokens of positive length. -/
def validTokens (q : SortQuery) : List String :=
  (match q with
    | .arr l => (l.map (fun it => jsSplit ',' it)).flatten
    | .str s => jsSplit ',' s).filter (fun p => decide (0 < p.length))

/-- Per-token work inside `parseSort`: split the token on `':'`, drop
empty sub-tokens. -/
def subTokens (it : String) : List String :=
  (jsSplit ':' it).filter (fun v => decide (0 < v.length))

/-- Per-token work inside `parseSort`:
`new Order(result[0], stringToDirection(result[1]))`. -/
def tokenToOrder (it : String) : Except JSError Order := do
  let result := subTokens it
  let dir ← stringToDirection result[1]?
  Order.make result[0]? (.str dir)

/-- `validArray.map(...)` with a throwing callback: the orders are built
left to right and the first throw propagates. -/
def ordersOf : List String → Except JSError (List Order)
  | [] => .ok []
  | t :: ts => do
    let o ← tokenToOrder t
    let os ← ordersOf ts
    return o :: os

/-- `parseSort(sortRequestQuery)`. -/
def parseSort (q : SortQuery) : Except JSError Sort' := do
  let orderList ← ordersOf (validTokens q)
  return ⟨orderList⟩

/-- `Pageable`: the parsed pagination request. -/
structure Pageable where
  page : Int
  size : Int
  indexed : Bool
  sort : Option Sort'
deriving DecidableEq, Repr

/-- The `sort` constructor argument of `Pageable`: absent (or another
falsy value), a raw query value, or an already-built `Sort`. -/
inductive SortArg where
  | noSort
  | query (q : SortQuery)
  | sorted (s : Sort')
deriving DecidableEq

/-- The `Pageable` constructor: stores page/size/indexed; a falsy `sort`
(`undefined`/`null`, here `noSort`, or the empty string — arrays and
`Sort` instances are always truthy in `if (sort)`) leaves `this.sort`
undefined, a `Sort` instance is stored as-is, and a raw string/array
value goes through `parseSort` (whose error propagates). -/
def Pageable.make (pageNumber pageSize : Int) (indexed : Bool) (sort : SortArg) :
    Except JSError Pageable :=
  match sort with
  | .noSort => .ok ⟨pageNumber, pageSize, indexed, none⟩
  | .sorted s => .ok ⟨pageNumber, pageSize, indexed, some s⟩
  | .query q =>
    if q = .str "" then .ok ⟨pageNumber, pageSize, indexed, none⟩
    else do
      let s ← parseSort q
      return ⟨pageNumber, pageSize, indexed, some s⟩

/-- `Math.ceil(totalElements / size)` for `size ≠ 0`, computed on
integers so that concrete pages evaluate in the kernel: for positive
`size` this is the usual `(te + size - 1) / size` form of the ceiling,
for negative `size` the quotient is `≤ 0` and its ceiling is the
negated floor of `te / (-size)`.  The lemma `ceilDivJS_eq_ceil` below
proves this equal to the real ceiling `⌈te / size⌉` for `0 < size`. -/
def ceilDivJS (totalElements : Nat) (size : Int) : Int :=
  if 0 < size then ((totalElements + size.toNat - 1) / size.toNat : Nat)
  else -((totalElements / (-size).toNat : Nat) : Int)

/-- `Math.max(Math.ceil(totalElements / size), 1)`.  For `size = 0` the
JS quotient is non-finite (`NaN` when `totalElements = 0`, `Infinity`
otherwise) and so is the whole expression: embedded as `none`.  For
`size < 0` the ceiling is `≤ 0`, so its `toNat` is `0` and the `max`
yields `1`, exactly as `Math.max` does on the negative ceiling. -/
def totalPagesJS (totalElements : Nat) (size : Int) : Option Nat :=
  if size = 0 then none
  else some (max (ceilDivJS totalElements size).toNat 1)

/-- `this.number >= this.totalPages - 1` where `totalPages` may be the
non-finite `NaN`/`Infinity` (`none`): a JS `>=` comparison against
`NaN` is `false`, and `number >= Infinity - 1` is also `false`. -/
def lastJS (number : Int) (totalPages : Option Nat) : Bool :=
  match totalPages with
  | none => false
  | some t => decide ((t : Int) - 1 ≤ number)

/-- The fields the base `Page` constructor computes (`numberOfElements`
is deliberately not here: the base leaves it undefined and each variant
sets it from its own content). -/
structure PageMeta where
  number : Int
  size : Int
  totalElements : Nat
  totalPages : Option Nat
  sort : Option Sort'
  first : Bool
  last : Bool
deriving DecidableEq, Repr

/-- The base `Page` constructor. -/
def mkPageMeta (totalElements : Nat) (pageable : Pageable) : PageMeta :=
  { number := pageable.page
    size := pageable.size
    totalElements := totalElements
    totalPages := totalPagesJS totalElements pageable.size
    sort := pageable.sort
    first := decide (pageable.page = 0)
    last := lastJS pageable.page (totalPagesJS totalElements pageable.size) }

/-- `Array.prototype.map(iteratee)`: the iteratee receives the value and
its 0-based index. -/
def jsArrayMap (f : Nat → α → β) : Nat → List α → List β
  | _, [] => []
  | i, a :: as => f i a :: jsArrayMap f (i + 1) as

/-- `ArrayPage<T>`. -/
structure ArrayPage (A : Type) where
  meta : PageMeta
  numberOfElements : Nat
  content : List A
deriving DecidableEq, Repr

/-- The `ArrayPage` constructor: base envelope plus
`numberOfElements = content.length`. -/
def ArrayPage.make (content : List A) (totalElements : Nat) (pageable : Pageable) :
    ArrayPage A :=
  ⟨mkPageMeta totalElements pageable, content.length, content⟩

/-- The fresh `Pageable` that `ArrayPage.map` derives:
`new Pageable(this.number, this.size, false, this.sort)`. -/
def ArrayPage.mapPageable (p : ArrayPage A) : Pageable :=
  ⟨p.meta.number, p.meta.size, false, p.meta.sort⟩

/-- `ArrayPage.prototype.map(iteratee)`. -/
def ArrayPage.map (p : ArrayPage A) (f : Nat → A → B) : ArrayPage B :=
  ArrayPage.make (jsArrayMap f 0 p.content) p.meta.totalElements p.mapPageable

/-- `IndexedPage<I, T>`; `index` is a JS object in key-insertion order. -/
structure IndexedPage (I A : Type) where
  meta : PageMeta
  numberOfElements : Nat
  ids : List I
  index : List (I × A)
deriving DecidableEq, Repr

/-- The `IndexedPage` constructor:
`numberOfElements = Object.values(index).length`, i.e. the number of
keys of the index object. -/
def IndexedPage.make (ids : List I) (index : List (I × A)) (totalElements : Nat)
    (pageable : Pageable) : IndexedPage I A :=
  ⟨mkPageMeta totalElements pageable, index.length, ids, index⟩

/-- lodash `mapValues(object, iteratee)`: transforms each value in
place, passing `(value, key)` to the iteratee; keys and their order are
untouched. -/
def mapValuesJS (index : List (I × A)) (f : A → I → B) : List (I × B) :=
  index.map (fun kv => (kv.1, f kv.2 kv.1))

/-- The fresh `Pageable` that `IndexedPage.map` derives:
`new Pageable(this.number, this.size, true, this.sort)`. -/
def IndexedPage.mapPageable (p : IndexedPage I A) : Pageable :=
  ⟨p.meta.number, p.meta.size, true, p.meta.sort⟩

/-- `IndexedPage.prototype.map(iteratee)`. -/
def IndexedPage.map (p : IndexedPage I A) (f : A → I → B) : IndexedPage I B :=
  IndexedPage.make p.ids (mapValuesJS p.index f) p.meta.totalElements p.mapPageable

/-- An element of an `IndexablePage`'s content: a value that exposes an
`id` field. -/
structure WithId (I A : Type) where
  id : I
  data : A
deriving DecidableEq, Repr

/-- `IndexablePage<I, T>`: array content plus the `indexed` flag copied
from the originating `Pageable`. -/
structure IndexablePage (I A : Type) where
  meta : PageMeta
  numberOfElements : Nat
  content : List (WithId I A)
  indexed : Bool
deriving DecidableEq, Repr

/-- The `IndexablePage` constructor. -/
def IndexablePage.make (content : List (WithId I A)) (totalElements : Nat)
    (pageable : Pageable) : IndexablePage I A :=
  ⟨mkPageMeta totalElements pageable, content.length, content, pageable.indexed⟩

/-- The fresh `Pageable` that `IndexablePage.map` and
`IndexablePage.toJSON` derive:
`new Pageable(this.number, this.size, this.indexed, this.sort)`. -/
def IndexablePage.mapPageable (p : IndexablePage I A) : Pageable :=
  ⟨p.meta.number, p.meta.size, p.indexed, p.meta.sort⟩

/-- `IndexablePage.prototype.map(iteratee)`. -/
def IndexablePage.map (p : IndexablePage I A) (f : Nat → WithId I A → WithId I B) :
    IndexablePage I B :=
  IndexablePage.make (jsArrayMap f 0 p.content) p.meta.totalElements p.mapPageable

/-- Property assignment `object[k] = v` on a JS object in key-insertion
order: an existing key (keys are unique, so the first occurrence) is
overwritten in place, a new key is appended at the end. -/
def jsObjSet [DecidableEq I] (m : List (I × A)) (k : I) (v : A) : List (I × A) :=
  match m with
  | [] => [(k, v)]
  | kv :: rest => if kv.1 = k then (k, v) :: rest else kv :: jsObjSet rest k v

/-- Property read `object[k]`: the value at the first (unique) matching
key, `undefined` (`none`) otherwise. -/
def jsObjGet [DecidableEq I] (m : List (I × A)) (k : I) : Option A :=
  (m.find? (fun kv => decide (kv.1 = k))).map (fun kv => kv.2)

/-- lodash `keyBy(content, 'id')`: builds `{[t.id]: t}` left to right,
so a later element with the same id overwrites an earlier one. -/
def keyBy [DecidableEq I] (content : List (WithId I A)) : List (I × WithId I A) :=
  content.foldl (fun m t => jsObjSet m t.id t) []

/-- The result shape of `IndexablePage.toJSON`. -/
inductive PageJSON (I A : Type) where
  | indexedPage (p : IndexedPage I (WithId I A))
  | arrayPage (p : ArrayPage (WithId I A))
deriving DecidableEq, Repr

/-- `IndexablePage.prototype.toJSON()`: if `indexed`, group the content
by `id` (ids in content order, `keyBy` map) into an `IndexedPage`; else
an `ArrayPage` with the content unchanged. Both derive a fresh
`Pageable` from the same page/size/indexed/sort. -/
def IndexablePage.toJSON [DecidableEq I] (p : IndexablePage I A) : PageJSON I A :=
  if p.indexed then
    let ids := p.content.map (fun it => it.id)
    let contentById := keyBy p.content
    .indexedPage (IndexedPage.make ids contentById p.meta.totalElements p.mapPageable)
  else
    .arrayPage (ArrayPage.make p.content p.meta.totalElements p.mapPageable)

/-- `parseInt(input, 10)`: skip leading whitespace, read an optional
sign and then a maximal run of decimal digits, ignoring everything
after it; `NaN` (`none`) when no digit was read. -/
def parseIntJS (input : String) : Option Int :=
  let chars := input.data.dropWhile (fun c => c.isWhitespace)
  let signed : Int × List Char :=
    match chars with
    | '-' :: cs => (-1, cs)
    | '+' :: cs => (1, cs)
    | cs => (1, cs)
  let digits := signed.2.takeWhile (fun c => c.isDigit)
  if digits.isEmpty then none
  else some (signed.1 * (digits.foldl (fun n c => n * 10 + ((c.toNat - '0'.toNat : Nat) : Int)) 0))

/-- `parseIntOrThrow`: `NumberFormatError` when `parseInt` returned
`NaN`. -/
def parseIntOrThrow (input : String) : Except JSError Int :=
  match parseIntJS input with
  | none => .error (.numberFormat input)
  | some n => .ok n

/-- `parseOptionalIntOrThrow`: `null` for an unspecified (falsy) input —
absent or the empty string — else `parseIntOrThrow`. -/
def parseOptionalIntOrThrow (input : Option String) : Except JSError (Option Int) :=
  match input with
  | none => .ok none
  | some s =>
    if s = "" then .ok none
    else do
      let n ← parseIntOrThrow s
      return some n

/-- The JS `||` coalescing on a parsed optional number: `null` and the
falsy number `0` (also `-0`) fall back to the default. -/
def jsOrInt (v : Option Int) (d : Int) : Int :=
  match v with
  | none => d
  | some x => if x = 0 then d else x

/-- `ctx.query.sort || null`: the empty string is the only falsy raw
sort value (arrays are truthy). -/
def jsOrNullSort (s : Option SortQuery) : Option SortQuery :=
  match s with
  | none => none
  | some q => if q = .str "" then none else some q

/-- The request query parameters read by `paginate`. -/
structure Query where
  page : Option String
  size : Option String
  sort : Option SortQuery
  indexed : Option String
deriving DecidableEq, Repr

/-- The `paginate` middleware body: parse `page` (default 0) and `size`
(default 10) with falsy coalescing, take `sort` raw, set `indexed` iff
the raw text is exactly `"true"`, and build the `Pageable` stored into
`ctx.state.pageable`. -/
def paginate (q : Query) : Except JSError Pageable := do
  let pOpt ← parseOptionalIntOrThrow q.page
  let sOpt ← parseOptionalIntOrThrow q.size
  let page := jsOrInt pOpt 0
  let size := jsOrInt sOpt 10
  let sortArg : SortArg :=
    match jsOrNullSort q.sort with
    | none => .noSort
    | some sq => .query sq
  let indexed := decide (q.indexed = some "true")
  Pageable.make page size indexed sortArg

/-- A token of `parseSort` whose explicit direction sub-token (the
second surviving sub-token after splitting on `':'`) matches neither
accepted direction value. -/
def badDir (t : String) : Prop :=
  ∃ d, (subTokens t)[1]? = some d ∧ d ≠ "asc" ∧ d ≠ "desc"

end KoaPageable

namespace KoaPageable

theorem ceilDivJS_eq_ceil (te : Nat) (s : Int) (hs : 0 < s) :
    ceilDivJS te s = ⌈(te : ℚ) / (s : ℚ)⌉ := by
  obtain ⟨b, hb, rfl⟩ : ∃ b : ℕ, 0 < b ∧ s = (b : ℤ) := ⟨s.toNat, by omega, by omega⟩
  have htn : ((b : ℤ)).toNat = b := by omega
  unfold ceilDivJS
  rw [if_pos hs, htn]
  set n : ℕ := (te + b - 1) / b with hn
  have hdm := Nat.div_add_mod (te + b - 1) b
  have hr : (te + b - 1) % b < b := Nat.mod_lt _ hb
  rw [← hn] at hdm
  have h3 : te ≤ b * n := by omega
  have h2 : b * n < te + b := by omega
  have hbq : (0 : ℚ) < (b : ℚ) := by positivity
  refine (Int.ceil_eq_iff.mpr ⟨?_, ?_⟩).symm
  · push_cast
    rw [lt_div_iff₀ hbq]
    have h2q : (b : ℚ) * n < te + b := by exact_mod_cast h2
    linarith [sub_one_mul (n : ℚ) (b : ℚ), mul_comm (n : ℚ) (b : ℚ)]
  · push_cast
    rw [div_le_iff₀ hbq]
    have h3q : (te : ℚ) ≤ (b : ℚ) * n := by exact_mod_cast h3
    linarith [mul_comm (n : ℚ) (b : ℚ)]

theorem tokenToOrder_ok_property {t : String} {o : Order}
    (h : tokenToOrder t = .ok o) : o.property = (subTokens t)[0]? := by
  simp only [tokenToOrder] at h
  cases hd : stringToDirection (subTokens t)[1]? with
  | error e => rw [hd] at h; simp [Bind.bind, Except.bind] at h
  | ok dir =>
    rw [hd] at h
    simp only [Bind.bind, Except.bind, Order.make] at h
    cases h
    rfl

theorem tokenToOrder_error_iff (t : String) (e : JSError) :
    tokenToOrder t = .error e ↔ e = .invalidSort ∧ badDir t := by
  simp only [tokenToOrder, badDir]
  cases h1 : (subTokens t)[1]? with
  | none =>
    simp only [stringToDirection, Bind.bind, Except.bind, Order.make]
    constructor
    · intro h; cases h
    · rintro ⟨-, d, hd, -⟩; cases hd
  | some d =>
    have hmem : d ∈ subTokens t := by
      have := List.getElem?_eq_some.mp h1
      obtain ⟨hlt, hget⟩ := this
      exact hget ▸ List.getElem_mem hlt
    have hne : d ≠ "" := by
      intro hd0
      have := (List.mem_filter.mp (hd0 ▸ hmem : ("" : String) ∈ subTokens t)).2
      simp at this
    simp only [stringToDirection, if_neg hne]
    by_cases hasc : d = "asc"
    · simp only [if_pos hasc, Bind.bind, Except.bind, Order.make]
      constructor
      · intro h; cases h
      · rintro ⟨-, d', hd', hd'a, -⟩
        cases hd'
        exact absurd hasc hd'a
    · by_cases hdesc : d = "desc"
      · simp only [if_neg hasc, if_pos hdesc, Bind.bind, Except.bind, Order.make]
        constructor
        · intro h; cases h
        · rintro ⟨-, d', hd', -, hd'd⟩
          cases hd'
          exact absurd hdesc hd'd
      · simp only [if_neg hasc, if_neg hdesc, Bind.bind, Except.bind]
        constructor
        · intro h
          cases h
          exact ⟨rfl, d, rfl, hasc, hdesc⟩
        · rintro ⟨he, -⟩
          rw [he]

theorem ordersOf_ok_property {l : List String} {os : List Order}
    (h : ordersOf l = .ok os) :
    os.map (fun o => o.property) = l.map (fun t => (subTokens t)[0]?) := by
  induction l generalizing os with
  | nil =>
    simp only [ordersOf] at h
    cases h
    simp
  | cons t ts ih =>
    simp only [ordersOf] at h
    cases h1 : tokenToOrder t with
    | error e => rw [h1] at h; simp [Bind.bind, Except.bind] at h
    | ok o =>
      rw [h1] at h
      cases h2 : ordersOf ts with
      | error e => rw [h2] at h; simp [Bind.bind, Except.bind] at h
      | ok os' =>
        rw [h2] at h
        simp only [Bind.bind, Except.bind, Except.pure, Pure.pure, Except.ok.injEq] at h
        subst h
        simp only [List.map_cons, tokenToOrder_ok_property h1, ih h2]

theorem ordersOf_error_iff (l : List String) (e : JSError) :
    ordersOf l = .error e ↔ e = .invalidSort ∧ ∃ t ∈ l, badDir t := by
  induction l generalizing e with
  | nil =>
    simp only [ordersOf]
    constructor
    · intro h; cases h
    · rintro ⟨-, t, hmem, -⟩; simp at hmem
  | cons t ts ih =>
    simp only [ordersOf]
    cases h1 : tokenToOrder t with
    | error e' =>
      have he' := (tokenToOrder_error_iff t e').mp h1
      simp only [Bind.bind, Except.bind]
      constructor
      · intro h
        cases h
        exact ⟨he'.1, t, List.mem_cons_self t ts, he'.2⟩
      · rintro ⟨he, -⟩
        rw [he, ← he'.1]
    | ok o =>
      have hnb : ¬ badDir t := by
        intro hb
        rw [(tokenToOrder_error_iff t .invalidSort).mpr ⟨rfl, hb⟩] at h1
        cases h1
      simp only [Bind.bind, Except.bind]
      cases h2 : ordersOf ts with
      | error e' =>
        have he' := (ih e').mp h2
        constructor
        · intro h
          cases h
          obtain ⟨t', hmem, hbd⟩ := he'.2
          exact ⟨he'.1, t', List.mem_cons_of_mem _ hmem, hbd⟩
        · rintro ⟨he, -⟩
          rw [he, ← he'.1]
      | ok os' =>
        simp only [Except.pure, Pure.pure]
        constructor
        · intro h; cases h
        · rintro ⟨he, t', hmem, hbd⟩
          rcases List.mem_cons.mp hmem with rfl | hmem'
          · exact absurd hbd hnb
          · rw [(ih .invalidSort).mpr ⟨rfl, t', hmem', hbd⟩] at h2
            cases h2

theorem parseSort_error_iff (q : SortQuery) (e : JSError) :
    parseSort q = .error e ↔ e = .invalidSort ∧ ∃ t ∈ validTokens q, badDir t := by
  simp only [parseSort]
  cases h : ordersOf (validTokens q) with
  | error e' =>
    have := (ordersOf_error_iff (validTokens q) e').mp h
    simp only [Bind.bind, Except.bind]
    constructor
    · intro he; cases he; exact this
    · rintro ⟨he, -⟩; rw [he, ← this.1]
  | ok os =>
    simp only [Bind.bind, Except.bind, Except.pure, Pure.pure]
    constructor
    · intro he; cases he
    · rintro ⟨he, t, hmem, hbd⟩
      rw [(ordersOf_error_iff (validTokens q) .invalidSort).mpr ⟨rfl, t, hmem, hbd⟩] at h
      cases h

theorem Pageable.make_ok_fields {a b : Int} {i : Bool} {sa : SortArg} {pb : Pageable}
    (h : Pageable.make a b i sa = .ok pb) :
    pb.page = a ∧ pb.size = b ∧ pb.indexed = i := by
  cases sa with
  | noSort => cases h; exact ⟨rfl, rfl, rfl⟩
  | sorted s => cases h; exact ⟨rfl, rfl, rfl⟩
  | query q =>
    simp only [Pageable.make] at h
    by_cases hq0 : q = SortQuery.str ""
    · rw [if_pos hq0] at h
      cases h
      exact ⟨rfl, rfl, rfl⟩
    · rw [if_neg hq0] at h
      cases hq : parseSort q with
      | error e => rw [hq] at h; simp [Bind.bind, Except.bind] at h
      | ok s =>
        rw [hq] at h
        simp only [Bind.bind, Except.bind, Pure.pure, Except.pure, Except.ok.injEq] at h
        subst h
        exact ⟨rfl, rfl, rfl⟩

theorem Pageable.make_error_invalidSort {a b : Int} {i : Bool} {sa : SortArg} {e : JSError}
    (h : Pageable.make a b i sa = .error e) : e = .invalidSort := by
  cases sa with
  | noSort => cases h
  | sorted s => cases h
  | query q =>
    simp only [Pageable.make] at h
    by_cases hq0 : q = SortQuery.str ""
    · rw [if_pos hq0] at h; cases h
    · rw [if_neg hq0] at h
      cases hq : parseSort q with
      | error e' =>
        rw [hq] at h
        simp only [Bind.bind, Except.bind, Except.error.injEq] at h
        subst h
        exact ((parseSort_error_iff q e').mp hq).1
      | ok s =>
        rw [hq] at h
        simp [Bind.bind, Except.bind, Pure.pure, Except.pure] at h

theorem jsObjGet_jsObjSet {I A : Type} [DecidableEq I]
    (m : List (I × A)) (k k' : I) (v : A) :
    jsObjGet (jsObjSet m k v) k' = if k' = k then some v else jsObjGet m k' := by
  induction m with
  | nil =>
    by_cases h : k' = k
    · subst h; simp [jsObjSet, jsObjGet, List.find?]
    · have h' : ¬ k = k' := fun hh => h hh.symm
      simp [jsObjSet, jsObjGet, List.find?, h, h']
  | cons kv rest ih =>
    by_cases h1 : kv.1 = k
    · by_cases h2 : k' = k
      · subst h2
        simp [jsObjSet, jsObjGet, List.find?, h1]
      · have h2' : ¬ k = k' := fun hh => h2 hh.symm
        have h3 : ¬ kv.1 = k' := h1 ▸ h2'
        simp [jsObjSet, jsObjGet, List.find?, h1, h2, h2', h3]
    · by_cases h2 : k' = k
      · subst h2
        have h3 : ¬ kv.1 = k' := h1
        have ih2 := ih
        rw [if_pos rfl] at ih2
        simp only [jsObjGet] at ih2
        simp [jsObjSet, jsObjGet, List.find?, h1, h3, ih2]
      · by_cases h3 : kv.1 = k'
        · simp [jsObjSet, jsObjGet, List.find?, h1, h2, h3]
        · have ih2 := ih
          rw [if_neg h2] at ih2
          simp only [jsObjGet] at ih2
          simp [jsObjSet, jsObjGet, List.find?, h1, h2, h3, ih2]

theorem keyBy_lookup {I A : Type} [DecidableEq I]
    (content : List (WithId I A)) (k : I) :
    jsObjGet (keyBy content) k
      = content.reverse.find? (fun t => decide (t.id = k)) := by
  induction content using List.reverseRecOn with
  | nil => simp [keyBy, jsObjGet, List.find?]
  | append_singleton l t ih =>
    have hk : keyBy (l ++ [t]) = jsObjSet (keyBy l) t.id t := by
      simp [keyBy, List.foldl_append]
    rw [hk, jsObjGet_jsObjSet, List.reverse_append]
    by_cases h : t.id = k
    · have h' : k = t.id := h.symm
      rw [if_pos h']
      simp [List.find?, h]
    · have h' : ¬ k = t.id := fun hh => h hh.symm
      rw [if_neg h']
      simp [List.find?, h, ih]

theorem jsArrayMap_length (f : Nat → α → β) (i : Nat) (l : List α) :
    (jsArrayMap f i l).length = l.length := by
  induction l generalizing i with
  | nil => rfl
  | cons a as ih => simp [jsArrayMap, ih]

theorem mapValuesJS_length {I A B : Type} (m : List (I × A)) (f : A → I → B) :
    (mapValuesJS m f).length = m.length := by
  simp [mapValuesJS]

theorem paginate_unfold (q : Query) :
    paginate q = (parseOptionalIntOrThrow q.page).bind (fun pOpt =>
      (parseOptionalIntOrThrow q.size).bind (fun sOpt =>
        Pageable.make (jsOrInt pOpt 0) (jsOrInt sOpt 10)
          (decide (q.indexed = some "true"))
          (match jsOrNullSort q.sort with
            | none => SortArg.noSort
            | some sq => SortArg.query sq))) := rfl

theorem parseOptionalIntOrThrow_error_iff (inp : Option String) (e : JSError) :
    parseOptionalIntOrThrow inp = .error e
      ↔ ∃ s, inp = some s ∧ s ≠ "" ∧ parseIntJS s = none ∧ e = .numberFormat s := by
  cases inp with
  | none =>
    simp [parseOptionalIntOrThrow]
  | some s =>
    by_cases hs : s = ""
    · subst hs
      simp [parseOptionalIntOrThrow]
    · simp only [parseOptionalIntOrThrow, if_neg hs]
      cases hv : parseIntJS s with
      | none =>
        simp only [parseIntOrThrow, hv, Bind.bind, Except.bind]
        constructor
        · intro h
          cases h
          exact ⟨s, rfl, hs, hv, rfl⟩
        · rintro ⟨s', hss, -, -, he⟩
          cases hss
          rw [he]
      | some v =>
        simp only [parseIntOrThrow, hv, Bind.bind, Except.bind, Pure.pure, Except.pure]
        constructor
        · intro h; cases h
        · rintro ⟨s', hss, -, hpn, -⟩
          cases hss
          rw [hv] at hpn
          cases hpn

theorem paginate_ok_fields {q : Query} {pb : Pageable} (h : paginate q = .ok pb) :
    (pb.indexed = true ↔ q.indexed = some "true")
    ∧ (q.page = none ∨ q.page = some "" → pb.page = 0)
    ∧ (∀ s v, q.page = some s → parseIntJS s = some v → v ≠ 0 → pb.page = v)
    ∧ (q.size = none ∨ q.size = some "" → pb.size = 10)
    ∧ (∀ s v, q.size = some s → parseIntJS s = some v → v ≠ 0 → pb.size = v) := by
  rw [paginate_unfold] at h
  cases hp : parseOptionalIntOrThrow q.page with
  | error e => rw [hp] at h; simp [Except.bind] at h
  | ok pOpt =>
    rw [hp] at h
    simp only [Except.bind] at h
    cases hsz : parseOptionalIntOrThrow q.size with
    | error e => rw [hsz] at h; simp [Except.bind] at h
    | ok sOpt =>
      rw [hsz] at h
      simp only [Except.bind] at h
      obtain ⟨hpg, hsg, hig⟩ := Pageable.make_ok_fields h
      refine ⟨?_, ?_, ?_, ?_, ?_⟩
      · rw [hig]; simp
      · intro hcase
        have hpn : pOpt = none := by
          rcases hcase with hc | hc <;> rw [hc] at hp
          · cases hp; rfl
          · simp only [parseOptionalIntOrThrow, if_pos rfl] at hp
            cases hp; rfl
        rw [hpg, hpn]; rfl
      · intro s v hqp hpv hv0
        rw [hqp] at hp
        have hsne : s ≠ "" := by
          intro h0
          rw [h0] at hpv
          have hemp : parseIntJS "" = none := by decide
          rw [hemp] at hpv
          cases hpv
        simp only [parseOptionalIntOrThrow, if_neg hsne, parseIntOrThrow, hpv,
          Bind.bind, Except.bind, Pure.pure, Except.pure, Except.ok.injEq] at hp
        rw [hpg, ← hp]
        simp [jsOrInt, hv0]
      · intro hcase
        have hsn : sOpt = none := by
          rcases hcase with hc | hc <;> rw [hc] at hsz
          · cases hsz; rfl
          · simp only [parseOptionalIntOrThrow, if_pos rfl] at hsz
            cases hsz; rfl
        rw [hsg, hsn]; rfl
      · intro s v hqs hsv hv0
        rw [hqs] at hsz
        have hsne : s ≠ "" := by
          intro h0
          rw [h0] at hsv
          have hemp : parseIntJS "" = none := by decide
          rw [hemp] at hsv
          cases hsv
        simp only [parseOptionalIntOrThrow, if_neg hsne, parseIntOrThrow, hsv,
          Bind.bind, Except.bind, Pure.pure, Except.pure, Except.ok.injEq] at hsz
        rw [hsg, ← hsz]
        simp [jsOrInt, hv0]

end KoaPageable

namespace KoaPageable

/-- C1: for every sort query value, `parseSort` splits (flattening
arrays element-wise) on `','`, drops empty tokens, splits each
surviving token on `':'` dropping empty sub-tokens, and returns a
`Sort` whose orders are in token order (each order's property being
the token's first surviving sub-token); in particular
`"a,b:desc,c:asc"` parses to orders `[(a, asc), (b, desc), (c, asc)]`,
`"a,,b,"` to exactly the two orders `a` and `b`, and `"a::desc"` to
the single order `(a, desc)`. -/
theorem claim_C1 :
    (∀ (q : SortQuery) (so : Sort'), parseSort q = .ok so →
        so.orders.map (fun o => o.property)
          = (validTokens q).map (fun t => (subTokens t)[0]?))
    ∧ parseSort (.str "a,b:desc,c:asc")
        = .ok ⟨[⟨some "a", .asc⟩, ⟨some "b", .desc⟩, ⟨some "c", .asc⟩]⟩
    ∧ parseSort (.str "a,,b,") = .ok ⟨[⟨some "a", .asc⟩, ⟨some "b", .asc⟩]⟩
    ∧ parseSort (.str "a::desc") = .ok ⟨[⟨some "a", .desc⟩]⟩
    ∧ parseSort (.arr ["a", "b:desc,c:asc"])
        = .ok ⟨[⟨some "a", .asc⟩, ⟨some "b", .desc⟩, ⟨some "c", .asc⟩]⟩ := by
  refine ⟨?_, by decide, by decide, by decide, by decide⟩
  intro q so h
  simp only [parseSort] at h
  cases ho : ordersOf (validTokens q) with
  | error e => rw [ho] at h; simp [Bind.bind, Except.bind] at h
  | ok os =>
    rw [ho] at h
    simp only [Bind.bind, Except.bind, Pure.pure, Except.pure, Except.ok.injEq] at h
    subst h
    exact ordersOf_ok_property ho

/-- Witness for C1: the token-order property applied at the concrete
query `"a,b:desc"`. -/
theorem claim_C1_witness :
    (Sort'.mk [⟨some "a", .asc⟩, ⟨some "b", .desc⟩]).orders.map (fun o => o.property)
      = (validTokens (.str "a,b:desc")).map (fun t => (subTokens t)[0]?) :=
  claim_C1.1 (.str "a,b:desc") ⟨[⟨some "a", .asc⟩, ⟨some "b", .desc⟩]⟩ (by decide)

/-- C2: `parseSort` fails iff some surviving token carries a (non-empty)
explicit direction sub-token that exactly matches neither `"asc"` nor
`"desc"`; the error is always `InvalidSortError`, and it propagates
uncaught through the `paginate` entry point. -/
theorem claim_C2 :
    ∀ (q : SortQuery),
      ((∃ e, parseSort q = .error e) ↔ ∃ t ∈ validTokens q, badDir t)
      ∧ (∀ e, parseSort q = .error e → e = .invalidSort)
      ∧ (∀ e, parseSort q = .error e →
          paginate ⟨none, none, some q, none⟩ = .error e) := by
  intro q
  refine ⟨⟨?_, ?_⟩, ?_, ?_⟩
  · rintro ⟨e, he⟩
    exact ((parseSort_error_iff q e).mp he).2
  · rintro ⟨t, hmem, hbd⟩
    exact ⟨.invalidSort, (parseSort_error_iff q .invalidSort).mpr ⟨rfl, t, hmem, hbd⟩⟩
  · intro e he
    exact ((parseSort_error_iff q e).mp he).1
  · intro e he
    by_cases hq0 : q = SortQuery.str ""
    · subst hq0
      have h0 : parseSort (SortQuery.str "") = .ok ⟨[]⟩ := by decide
      rw [h0] at he
      cases he
    · rw [paginate_unfold]
      simp only [parseOptionalIntOrThrow, Except.bind, jsOrNullSort, if_neg hq0]
      simp only [Pageable.make, if_neg hq0, he, Bind.bind, Except.bind]

/-- Witness for C2: the propagation conjunct applied at the concrete
query `"a:foo"`, whose direction token is invalid. -/
theorem claim_C2_witness :
    paginate ⟨none, none, some (.str "a:foo"), none⟩ = .error .invalidSort :=
  (claim_C2 (.str "a:foo")).2.2 .invalidSort (by decide)

/-- C8 (code bug): the `Sort` iterator's `next` computes
`value = values[count += 1]` — pre-incrementing before indexing — so a
`for...of` loop over `new Sort([Order("a"), Order("b")])` receives
`[Order("b"), undefined]`: it skips the first order and yields an
out-of-range `undefined`, instead of yielding each order exactly once
in sequence order. -/
theorem claim_C8 :
    Sort'.iterate ⟨[⟨some "a", .asc⟩, ⟨some "b", .asc⟩]⟩
        = [some ⟨some "b", .asc⟩, none]
    ∧ Sort'.iterate ⟨[⟨some "a", .asc⟩, ⟨some "b", .asc⟩]⟩
        ≠ [some ⟨some "a", .asc⟩, some ⟨some "b", .asc⟩] := by decide

/-- Counterexample to C9 as stated: a `null` direction argument does
not fall back to ascending — `null.toLowerCase()` throws a
`TypeError`, so construction fails. -/
theorem claim_C9_counterexample :
    Order.make (some "x") .null = .error .typeError := by decide

/-- C9 (amended): `Order` construction succeeds for every property and
every *string* (or absent) direction argument — including typos and
the empty string — storing the property unchanged and choosing
descending exactly when the lowercased argument is `"desc"`; a `null`
direction argument instead raises a `TypeError`. -/
theorem claim_C9_amended :
    ∀ (prop : Option String) (s : String),
      Order.make prop .undef = .ok ⟨prop, .asc⟩
      ∧ Order.make prop (.str s)
          = .ok ⟨prop, if jsToLower s = "desc" then .desc else .asc⟩
      ∧ Order.make prop .null = .error .typeError := by
  intro prop s
  have hif : (if jsToLower "asc" = "desc" then Direction.desc else Direction.asc)
      = Direction.asc := by decide
  refine ⟨?_, rfl, rfl⟩
  rw [← hif]
  rfl

/-- Counterexample to C3 as stated: with `totalElements = 0`, page
number `1` and size `5`, the page envelope has `first = false` (the
code sets `first = (number === 0)`), while the claim asserts
`first = true` for every non-negative page number. -/
theorem claim_C3_counterexample :
    (mkPageMeta 0 ⟨1, 5, false, none⟩).first = false := by decide

/-- C3 (amended): for every page number `p ≥ 0` and size `s ≥ 1`,
constructing a base page envelope from `totalElements = 0` yields
`totalPages = 1` and `last = true`, and `first = true` exactly when
`p = 0`; in general `totalPages = max(ceil(totalElements / size), 1)`
and is never zero (nor non-finite). -/
theorem claim_C3_amended :
    ∀ (p s : Int) (idx : Bool) (so : Option Sort') (te : Nat), 0 ≤ p → 1 ≤ s →
      (mkPageMeta 0 ⟨p, s, idx, so⟩).totalPages = some 1
      ∧ (mkPageMeta 0 ⟨p, s, idx, so⟩).last = true
      ∧ ((mkPageMeta 0 ⟨p, s, idx, so⟩).first = true ↔ p = 0)
      ∧ (mkPageMeta te ⟨p, s, idx, so⟩).totalPages
          = some (max ⌈(te : ℚ) / (s : ℚ)⌉.toNat 1)
      ∧ (mkPageMeta te ⟨p, s, idx, so⟩).totalPages ≠ some 0
      ∧ (mkPageMeta te ⟨p, s, idx, so⟩).totalPages ≠ none := by
  intro p s idx so te hp hs
  have hs0 : s ≠ 0 := by omega
  have hpos : (0 : Int) < s := by omega
  have htp : ∀ n : Nat, (mkPageMeta n ⟨p, s, idx, so⟩).totalPages
      = some (max ⌈(n : ℚ) / (s : ℚ)⌉.toNat 1) := by
    intro n
    show totalPagesJS n s = _
    rw [totalPagesJS, if_neg hs0, ceilDivJS_eq_ceil n s hpos]
  have h1 : (mkPageMeta 0 ⟨p, s, idx, so⟩).totalPages = some 1 := by
    rw [htp 0]
    norm_num
  refine ⟨h1, ?_, ?_, htp te, ?_, ?_⟩
  · have h1' : totalPagesJS 0 s = some 1 := h1
    show lastJS p (totalPagesJS 0 s) = true
    rw [h1']
    simp only [lastJS, decide_eq_true_eq]
    omega
  · show decide (p = 0) = true ↔ p = 0
    simp
  · rw [htp te]
    intro h
    rw [Option.some.injEq] at h
    omega
  · rw [htp te]
    simp

/-- Witness for C3 (amended), at `p = 2`, `s = 5`, `te = 7`. -/
theorem claim_C3_amended_witness :
    (mkPageMeta 0 ⟨2, 5, false, none⟩).totalPages = some 1
    ∧ (mkPageMeta 0 ⟨2, 5, false, none⟩).last = true
    ∧ ((mkPageMeta 0 ⟨2, 5, false, none⟩).first = true ↔ (2 : Int) = 0)
    ∧ (mkPageMeta 7 ⟨2, 5, false, none⟩).totalPages
        = some (max ⌈((7 : ℕ) : ℚ) / (((5 : ℤ)) : ℚ)⌉.toNat 1)
    ∧ (mkPageMeta 7 ⟨2, 5, false, none⟩).totalPages ≠ some 0
    ∧ (mkPageMeta 7 ⟨2, 5, false, none⟩).totalPages ≠ none :=
  claim_C3_amended 2 5 false none 7 (by norm_num) (by norm_num)

/-- Counterexample to C4 as stated: with `totalElements = 1`, `size = 1`
(`totalPages = 1`), the page with number `1` — not equal to
`totalPages - 1 = 0` — still reports `last = true`, because the code
computes `last = (number >= totalPages - 1)` without clamping. -/
theorem claim_C4_counterexample :
    (mkPageMeta 1 ⟨1, 1, false, none⟩).last = true
    ∧ (mkPageMeta 1 ⟨1, 1, false, none⟩).number = 1
    ∧ (mkPageMeta 1 ⟨1, 1, false, none⟩).totalPages = some 1 := by decide

/-- C4 (amended): for every `totalElements ≥ 1` and `size ≥ 1`, the base
page envelope computes `totalPages = ceil(totalElements / size)`, and
`last = true` holds exactly for the page numbers
`≥ totalPages - 1` (so, among the in-range page numbers
`0 … totalPages - 1`, exactly the last one). -/
theorem claim_C4_amended :
    ∀ (te : Nat) (s p : Int) (idx : Bool) (so : Option Sort'), 1 ≤ te → 1 ≤ s →
      (mkPageMeta te ⟨p, s, idx, so⟩).totalPages = some ⌈(te : ℚ) / (s : ℚ)⌉.toNat
      ∧ ((mkPageMeta te ⟨p, s, idx, so⟩).last = true
          ↔ (⌈(te : ℚ) / (s : ℚ)⌉.toNat : Int) - 1 ≤ p) := by
  intro te s p idx so hte hs
  have hpos : (0 : Int) < s := by omega
  have hs0 : s ≠ 0 := by omega
  have hceil : 0 < ⌈(te : ℚ) / (s : ℚ)⌉ := by
    rw [Int.ceil_pos]
    apply div_pos
    · have h0 : 0 < te := hte
      exact_mod_cast h0
    · exact_mod_cast hpos
  have hmax : max ⌈(te : ℚ) / (s : ℚ)⌉.toNat 1 = ⌈(te : ℚ) / (s : ℚ)⌉.toNat := by
    omega
  have htp : (mkPageMeta te ⟨p, s, idx, so⟩).totalPages
      = some ⌈(te : ℚ) / (s : ℚ)⌉.toNat := by
    show totalPagesJS te s = _
    rw [totalPagesJS, if_neg hs0, ceilDivJS_eq_ceil te s hpos, hmax]
  refine ⟨htp, ?_⟩
  have htp' : totalPagesJS te s = some ⌈(te : ℚ) / (s : ℚ)⌉.toNat := htp
  show lastJS p (totalPagesJS te s) = true ↔ _
  rw [htp']
  simp [lastJS]

/-- Witness for C4 (amended), at `te = 3`, `s = 2`, `p = 1`. -/
theorem claim_C4_amended_witness :
    (mkPageMeta 3 ⟨1, 2, false, none⟩).totalPages
        = some ⌈((3 : ℕ) : ℚ) / (((2 : ℤ)) : ℚ)⌉.toNat
    ∧ ((mkPageMeta 3 ⟨1, 2, false, none⟩).last = true
        ↔ (⌈((3 : ℕ) : ℚ) / (((2 : ℤ)) : ℚ)⌉.toNat : Int) - 1 ≤ 1) :=
  claim_C4_amended 3 2 1 false none (by norm_num) (by norm_num)

/-- C5: for every `IndexablePage`, `toJSON` with `indexed = true`
returns the `IndexedPage`-equivalent structure whose `ids` are each
content element's `id` field in content order and whose `index` maps
each id to the *last* content element carrying it (last-write-wins on
duplicates); with `indexed = false` it returns the
`ArrayPage`-equivalent structure with the content unchanged, and —
`toJSON` being a pure computation — calling it twice yields equal
results. -/
theorem claim_C5 :
    ∀ (I A : Type) (_inst : DecidableEq I) (content : List (WithId I A)) (te : Nat)
      (pb : Pageable),
      (pb.indexed = true →
        (IndexablePage.make content te pb).toJSON
            = .indexedPage (IndexedPage.make (content.map (fun it => it.id))
                (keyBy content) te ⟨pb.page, pb.size, pb.indexed, pb.sort⟩)
        ∧ ∀ k, jsObjGet (keyBy content) k
            = content.reverse.find? (fun t => decide (t.id = k)))
      ∧ (pb.indexed = false →
        (IndexablePage.make content te pb).toJSON
            = .arrayPage (ArrayPage.make content te
                ⟨pb.page, pb.size, pb.indexed, pb.sort⟩)
        ∧ (IndexablePage.make content te pb).toJSON
            = (IndexablePage.make content te pb).toJSON) := by
  intro I A inst content te pb
  constructor
  · intro hidx
    have hi : (IndexablePage.make content te pb).indexed = true := hidx
    constructor
    · unfold IndexablePage.toJSON
      rw [if_pos hi]
      rfl
    · intro k
      exact keyBy_lookup content k
  · intro hidx
    have hi : ¬ (IndexablePage.make content te pb).indexed = true := by
      show ¬ pb.indexed = true
      rw [hidx]
      exact Bool.false_ne_true
    constructor
    · unfold IndexablePage.toJSON
      rw [if_neg hi]
      rfl
    · rfl

/-- Witness for C5: a concrete `IndexablePage` with a duplicate id
(`1` appears twice); its serialization groups by id and the index maps
`1` to the last element carrying it. -/
theorem claim_C5_witness :
    (IndexablePage.make ([⟨1, 10⟩, ⟨2, 20⟩, ⟨1, 30⟩] : List (WithId Nat Nat)) 3
        ⟨0, 20, true, none⟩).toJSON
      = .indexedPage (IndexedPage.make
          (([⟨1, 10⟩, ⟨2, 20⟩, ⟨1, 30⟩] : List (WithId Nat Nat)).map (fun it => it.id))
          (keyBy [⟨1, 10⟩, ⟨2, 20⟩, ⟨1, 30⟩]) 3 ⟨0, 20, true, none⟩)
    ∧ jsObjGet (keyBy ([⟨1, 10⟩, ⟨2, 20⟩, ⟨1, 30⟩] : List (WithId Nat Nat))) 1
      = ([⟨1, 10⟩, ⟨2, 20⟩, ⟨1, 30⟩] : List (WithId Nat Nat)).reverse.find?
          (fun t => decide (t.id = 1)) := by
  have h := claim_C5 Nat Nat inferInstance [⟨1, 10⟩, ⟨2, 20⟩, ⟨1, 30⟩] 3 ⟨0, 20, true, none⟩
  exact ⟨(h.1 rfl).1, (h.1 rfl).2 1⟩

/-- C6: for every page variant and every transform, `map` preserves the
whole base envelope (`totalElements`, `number`, `size`, `sort`,
`totalPages`, `first`, `last`) and `numberOfElements`, transforming
only the content (respectively the index values, with `ids` unchanged
for `IndexedPage`); the fresh `Pageable` that `map` derives has
`indexed` forced to `false` for `ArrayPage`, forced to `true` for
`IndexedPage`, and copied from the source for `IndexablePage`. -/
theorem claim_C6 :
    (∀ (A B : Type) (content : List A) (te : Nat) (pb : Pageable) (f : Nat → A → B),
      ((ArrayPage.make content te pb).map f).meta = (ArrayPage.make content te pb).meta
      ∧ ((ArrayPage.make content te pb).map f).numberOfElements
          = (ArrayPage.make content te pb).numberOfElements
      ∧ ((ArrayPage.make content te pb).map f).content = jsArrayMap f 0 content
      ∧ (ArrayPage.make content te pb).mapPageable.indexed = false)
    ∧ (∀ (I A B : Type) (ids : List I) (index : List (I × A)) (te : Nat) (pb : Pageable)
        (f : A → I → B),
      ((IndexedPage.make ids index te pb).map f).meta
          = (IndexedPage.make ids index te pb).meta
      ∧ ((IndexedPage.make ids index te pb).map f).numberOfElements
          = (IndexedPage.make ids index te pb).numberOfElements
      ∧ ((IndexedPage.make ids index te pb).map f).ids = ids
      ∧ ((IndexedPage.make ids index te pb).map f).index = mapValuesJS index f
      ∧ (IndexedPage.make ids index te pb).mapPageable.indexed = true)
    ∧ (∀ (I A B : Type) (content : List (WithId I A)) (te : Nat) (pb : Pageable)
        (f : Nat → WithId I A → WithId I B),
      ((IndexablePage.make content te pb).map f).meta
          = (IndexablePage.make content te pb).meta
      ∧ ((IndexablePage.make content te pb).map f).numberOfElements
          = (IndexablePage.make content te pb).numberOfElements
      ∧ ((IndexablePage.make content te pb).map f).content = jsArrayMap f 0 content
      ∧ ((IndexablePage.make content te pb).map f).indexed
          = (IndexablePage.make content te pb).indexed
      ∧ (IndexablePage.make content te pb).mapPageable.indexed
          = (IndexablePage.make content te pb).indexed) := by
  refine ⟨?_, ?_, ?_⟩
  · intro A B content te pb f
    exact ⟨rfl, jsArrayMap_length f 0 content, rfl, rfl⟩
  · intro I A B ids index te pb f
    exact ⟨rfl, mapValuesJS_length index f, rfl, rfl, rfl⟩
  · intro I A B content te pb f
    exact ⟨rfl, jsArrayMap_length f 0 content, rfl, rfl, rfl⟩

/-- Counterexample to C7 as stated: for the query `size = "0"` — a
present, non-empty, parseable size text whose value is `0` — the
resulting `Pageable.size` is `10`, not the parsed integer `0`, because
`parseOptionalIntOrThrow(...) || 10` coalesces the falsy number `0`
into the default. -/
theorem claim_C7_counterexample :
    paginate ⟨none, some "0", none, none⟩ = .ok ⟨0, 10, false, none⟩
    ∧ parseIntJS "0" = some 0
    ∧ ("0" : String) ≠ ""
    ∧ (10 : Int) ≠ 0 := by decide

/-- C7 (amended): `paginate` sets `Pageable.page` to the parsed integer
when the page text is present, non-empty and parses to a non-zero
value (else `0` — a parsed `0` coincides with the default), and
`Pageable.size` likewise with default `10` (so a parsed size `0` is
replaced by `10`); it fails with `NumberFormatError` exactly when the
page or size text is present, non-empty and not parseable by
`parseInt`; and `indexed` is `true` iff the raw value is exactly the
text `"true"`. -/
theorem claim_C7_amended :
    ∀ (q : Query),
      (∀ pb, paginate q = .ok pb →
        (pb.indexed = true ↔ q.indexed = some "true")
        ∧ (q.page = none ∨ q.page = some "" → pb.page = 0)
        ∧ (∀ s v, q.page = some s → parseIntJS s = some v → v ≠ 0 → pb.page = v)
        ∧ (q.size = none ∨ q.size = some "" → pb.size = 10)
        ∧ (∀ s v, q.size = some s → parseIntJS s = some v → v ≠ 0 → pb.size = v))
      ∧ ((∃ m, paginate q = .error (.numberFormat m))
          ↔ (∃ s, q.page = some s ∧ s ≠ "" ∧ parseIntJS s = none)
            ∨ (∃ s, q.size = some s ∧ s ≠ "" ∧ parseIntJS s = none)) := by
  intro q
  constructor
  · intro pb h
    exact paginate_ok_fields h
  · constructor
    · rintro ⟨m, hm⟩
      rw [paginate_unfold] at hm
      cases hp : parseOptionalIntOrThrow q.page with
      | error e =>
        rw [hp] at hm
        simp only [Except.bind] at hm
        cases hm
        obtain ⟨s, hqp, hs, hpn, -⟩ := (parseOptionalIntOrThrow_error_iff _ _).mp hp
        exact Or.inl ⟨s, hqp, hs, hpn⟩
      | ok pOpt =>
        rw [hp] at hm
        simp only [Except.bind] at hm
        cases hsz : parseOptionalIntOrThrow q.size with
        | error e =>
          rw [hsz] at hm
          simp only [Except.bind] at hm
          cases hm
          obtain ⟨s, hqs, hs, hpn, -⟩ := (parseOptionalIntOrThrow_error_iff _ _).mp hsz
          exact Or.inr ⟨s, hqs, hs, hpn⟩
        | ok sOpt =>
          rw [hsz] at hm
          simp only [Except.bind] at hm
          cases Pageable.make_error_invalidSort hm
    · rintro (⟨s, hqp, hs, hpn⟩ | ⟨s, hqs, hs, hpn⟩)
      · refine ⟨s, ?_⟩
        have hp : parseOptionalIntOrThrow q.page = .error (.numberFormat s) := by
          rw [hqp]
          simp [parseOptionalIntOrThrow, if_neg hs, parseIntOrThrow, hpn,
            Bind.bind, Except.bind]
        rw [paginate_unfold, hp]
        rfl
      · cases hp : parseOptionalIntOrThrow q.page with
        | error e =>
          obtain ⟨s', -, -, -, he⟩ := (parseOptionalIntOrThrow_error_iff _ _).mp hp
          refine ⟨s', ?_⟩
          rw [paginate_unfold, hp, he]
          rfl
        | ok pOpt =>
          refine ⟨s, ?_⟩
          have hsz : parseOptionalIntOrThrow q.size = .error (.numberFormat s) := by
            rw [hqs]
            simp [parseOptionalIntOrThrow, if_neg hs, parseIntOrThrow, hpn,
              Bind.bind, Except.bind]
          rw [paginate_unfold, hp]
          simp only [Except.bind]
          rw [hsz]

/-- Witness for C7 (amended): the ok-case conjuncts applied at the
concrete query `{page: "-7", indexed: "x"}`. -/
theorem claim_C7_amended_witness :
    (Pageable.mk (-7) 10 false none).page = -7
    ∧ (Pageable.mk (-7) 10 false none).size = 10 :=
  have h := (claim_C7_amended ⟨some "-7", none, none, some "x"⟩).1
    ⟨-7, 10, false, none⟩ (by decide)
  ⟨h.2.2.1 "-7" (-7) rfl (by decide) (by decide), h.2.2.2.1 (Or.inl rfl)⟩

/-- C10: in `paginate`, a page or size text that parses to the integer
`0` is replaced by the default via falsy `||` coalescing: `size = "0"`
yields `Pageable.size = 10` (never `0`), while `page = "0"` coincides
with the default `0`; parsed non-zero values — including negative
ones — are stored as-is. -/
theorem claim_C10 :
    paginate ⟨none, some "0", none, none⟩ = .ok ⟨0, 10, false, none⟩
    ∧ paginate ⟨some "0", none, none, none⟩ = .ok ⟨0, 10, false, none⟩
    ∧ (∀ (q : Query) (s : String) (v : Int) (pb : Pageable),
        q.page = some s → parseIntJS s = some v → v ≠ 0 →
        paginate q = .ok pb → pb.page = v)
    ∧ (∀ (q : Query) (s : String) (v : Int) (pb : Pageable),
        q.size = some s → parseIntJS s = some v → v ≠ 0 →
        paginate q = .ok pb → pb.size = v) := by
  refine ⟨by decide, by decide, ?_, ?_⟩
  · intro q s v pb hqp hpv hv0 h
    exact (paginate_ok_fields h).2.2.1 s v hqp hpv hv0
  · intro q s v pb hqs hsv hv0 h
    exact (paginate_ok_fields h).2.2.2.2 s v hqs hsv hv0

/-- Witness for C10: a negative parsed size (`"-5"`) is stored as-is. -/
theorem claim_C10_witness :
    (Pageable.mk 0 (-5) false none).size = -5 :=
  claim_C10.2.2.2 ⟨none, some "-5", none, none⟩ "-5" (-5) ⟨0, -5, false, none⟩
    rfl (by decide) (by decide) (by decide)

end KoaPageable

